import Mathlib

/-!
Verification development for the chessrx analysis core.

The definitions below are a shallow embedding of the TypeScript sources:

* `src/lib/chess-utils.ts`      — UCI move codec (`parseUciMove`, `toUci`)
* `src/lib/tactics-detector.ts` — tactical motif detector (`detectTactics`,
  `getAttackedPieces`, `isUndefended`)
* `src/lib/game-analyzer.ts`    — analysis orchestrator (`analyzeGames`,
  `evalDeltaForSide`, `classifyDifficulty`, `classifyPattern`, the per-game
  eval cache, progress reporting, and the per-game puzzle streaming step)

The detector and the analyzer delegate all chess legality questions to the
chess.js v1 library, an external collaborator of this core.  Its behaviour is
modelled here from its documented contract (legal-move enumeration for the
side to move, FEN parsing, move application, check and checkmate tests).
Machine floats of the source are modelled as rationals; all evaluation logic
in the source is comparison and subtraction of such scores.
-/

namespace ChessRx

-- The Batteries rational-number operations are sealed; the concrete
-- evaluations below need them to reduce.
attribute [local semireducible] Rat.add Rat.sub Rat.mul Rat.inv Rat.ofScientific

/-- Piece color, chess.js `Color` (`'w' | 'b'`). -/
inductive PColor
  | w
  | b
deriving DecidableEq, Repr

/-- The opposite color. -/
def PColor.other : PColor → PColor
  | .w => .b
  | .b => .w

/-- Piece kind, chess.js `PieceSymbol` (`'p' | 'n' | 'b' | 'r' | 'q' | 'k'`). -/
inductive PKind
  | p
  | n
  | b
  | r
  | q
  | k
deriving DecidableEq, Repr

/-- A colored piece, chess.js `Piece`. -/
structure Piece where
  color : PColor
  kind : PKind
deriving DecidableEq, Repr

/-- Squares are indexed 0..63 with index `rank * 8 + file`, rank 0 = rank 1. -/
abbrev Board := List (Option Piece)

/-- Board lookup; out-of-range indices hold no piece. -/
def boardGet (bd : Board) (i : ℕ) : Option Piece :=
  match bd.get? i with
  | some v => v
  | none => none

/-- Board update. -/
def boardSet (bd : Board) (i : ℕ) (v : Option Piece) : Board :=
  bd.set i v

/-- File letter of a square name (`a`..`h`). -/
def fileOfChar (c : Char) : Option ℕ :=
  if 97 ≤ c.toNat ∧ c.toNat ≤ 104 then some (c.toNat - 97) else none

/-- Rank digit of a square name (`1`..`8`). -/
def rankOfChar (c : Char) : Option ℕ :=
  if 49 ≤ c.toNat ∧ c.toNat ≤ 56 then some (c.toNat - 49) else none

/-- Parse an algebraic square name (`"e4"`) to its board index, as chess.js
does when a square string is looked up in its `Ox88` table; invalid names
resolve to nothing. -/
def parseSquare (s : String) : Option ℕ :=
  match s.toList with
  | [f, r] =>
    match fileOfChar f, rankOfChar r with
    | some fi, some ri => some (ri * 8 + fi)
    | _, _ => none
  | _ => none

/-- Algebraic name of a board index, chess.js `algebraic`. -/
def toAlg (i : ℕ) : String :=
  ⟨[Char.ofNat (97 + i % 8), Char.ofNat (49 + i / 8)]⟩

/-- Full game state, the state chess.js tracks for a loaded FEN. -/
structure Position where
  board : Board
  turn : PColor
  castleWK : Bool
  castleWQ : Bool
  castleBK : Bool
  castleBQ : Bool
  ep : Option ℕ
  halfmove : ℕ
  fullmove : ℕ
deriving DecidableEq, Repr

/-- FEN piece letters. -/
def pieceOfChar (c : Char) : Option Piece :=
  match c with
  | 'P' => some ⟨.w, .p⟩
  | 'N' => some ⟨.w, .n⟩
  | 'B' => some ⟨.w, .b⟩
  | 'R' => some ⟨.w, .r⟩
  | 'Q' => some ⟨.w, .q⟩
  | 'K' => some ⟨.w, .k⟩
  | 'p' => some ⟨.b, .p⟩
  | 'n' => some ⟨.b, .n⟩
  | 'b' => some ⟨.b, .b⟩
  | 'r' => some ⟨.b, .r⟩
  | 'q' => some ⟨.b, .q⟩
  | 'k' => some ⟨.b, .k⟩
  | _ => none

/-- Split a character list on a separator character, the string `split` with
a one-character separator that the FEN fields go through. -/
def splitOnCharAux (sep : Char) : List Char → List Char → List (List Char)
  | [], acc => [acc.reverse]
  | c :: rest, acc =>
    if c = sep then acc.reverse :: splitOnCharAux sep rest []
    else splitOnCharAux sep rest (c :: acc)

/-- String split on a one-character separator. -/
def strSplitOn (s : String) (sep : Char) : List String :=
  (splitOnCharAux sep s.toList []).map (fun l => ⟨l⟩)

/-- Parse a decimal numeral string. -/
def strToNat (s : String) : Option ℕ :=
  if s.toList ≠ [] ∧ s.toList.all (fun c => 48 ≤ c.toNat ∧ c.toNat ≤ 57) then
    some (s.toList.foldl (fun acc c => acc * 10 + (c.toNat - 48)) 0)
  else none

/-- Expand one FEN rank segment into its eight squares. -/
def expandRank : List Char → Option (List (Option Piece))
  | [] => some []
  | c :: rest =>
    match expandRank rest with
    | none => none
    | some tail =>
      if 49 ≤ c.toNat ∧ c.toNat ≤ 56 then
        some (List.replicate (c.toNat - 48) none ++ tail)
      else
        match pieceOfChar c with
        | some pc => some (some pc :: tail)
        | none => none

/-- Parse the FEN piece-placement field.  The FEN lists rank 8 first, so the
parsed ranks are reversed to obtain the rank-1-first board layout. -/
def parsePlacement (s : String) : Option Board :=
  let segs := strSplitOn s '/'
  if segs.length = 8 then
    match segs.mapM (fun seg => expandRank seg.toList) with
    | some ranks =>
      if ranks.all (fun rk => rk.length = 8) then some ranks.reverse.flatten else none
    | none => none
  else none

/-- Parse the FEN castling field. -/
def parseCastling (s : String) : Option (Bool × Bool × Bool × Bool) :=
  if s = "-" then some (false, false, false, false)
  else if s.toList.all (fun c => c ∈ ['K', 'Q', 'k', 'q']) ∧ s.length ≥ 1 then
    some (s.toList.contains 'K', s.toList.contains 'Q',
      s.toList.contains 'k', s.toList.contains 'q')
  else none

/-- Count pieces of a given kind and color. -/
def countPiece (bd : Board) (pc : Piece) : ℕ :=
  bd.countP (fun sq => sq = some pc)

/-- Structural validity mirroring chess.js `validateFen`: both kings present
exactly once and no pawn stands on a back rank. -/
def boardValid (bd : Board) : Bool :=
  countPiece bd ⟨.w, .k⟩ = 1 ∧ countPiece bd ⟨.b, .k⟩ = 1 ∧
    (List.range 8).all (fun f =>
      boardGet bd f ≠ some ⟨.w, .p⟩ ∧ boardGet bd f ≠ some ⟨.b, .p⟩ ∧
      boardGet bd (56 + f) ≠ some ⟨.w, .p⟩ ∧ boardGet bd (56 + f) ≠ some ⟨.b, .p⟩)

/-- Parse a FEN string into a `Position`, the chess.js `Chess` constructor.
Invalid FENs (which make the constructor throw) parse to nothing. -/
def parseFen (fen : String) : Option Position :=
  match strSplitOn fen ' ' with
  | [pl, t, ca, epS, hm, fm] =>
    match parsePlacement pl with
    | none => none
    | some bd =>
      if boardValid bd then
        match (match t with | "w" => some PColor.w | "b" => some PColor.b | _ => none) with
        | none => none
        | some turn =>
          match parseCastling ca with
          | none => none
          | some (wk, wq, bk, bq) =>
            match (if epS = "-" then some none else (parseSquare epS).map some) with
            | none => none
            | some ep =>
              match strToNat hm, strToNat fm with
              | some halfmove, some fullmove =>
                some ⟨bd, turn, wk, wq, bk, bq, ep, halfmove, fullmove⟩
              | _, _ => none
      else none
  | _ => none

/-- Step from a square by a (file, rank) offset, staying on the board. -/
def offSq (i : ℕ) (df dr : Int) : Option ℕ :=
  let f : Int := (i % 8 : ℕ) + df
  let r : Int := (i / 8 : ℕ) + dr
  if 0 ≤ f ∧ f < 8 ∧ 0 ≤ r ∧ r < 8 then some (r.toNat * 8 + f.toNat) else none

def knightOffsets : List (Int × Int) :=
  [(1, 2), (2, 1), (2, -1), (1, -2), (-1, -2), (-2, -1), (-2, 1), (-1, 2)]

def kingOffsets : List (Int × Int) :=
  [(1, 0), (1, 1), (0, 1), (-1, 1), (-1, 0), (-1, -1), (0, -1), (1, -1)]

def rookDirs : List (Int × Int) := [(1, 0), (-1, 0), (0, 1), (0, -1)]

def bishopDirs : List (Int × Int) := [(1, 1), (1, -1), (-1, 1), (-1, -1)]

/-- First piece met walking a ray from a square (the square itself excluded). -/
def rayFirst (bd : Board) : ℕ → ℕ → Int → Int → Option Piece
  | 0, _, _, _ => none
  | fuel + 1, i, df, dr =>
    match offSq i df dr with
    | none => none
    | some j =>
      match boardGet bd j with
      | some pc => some pc
      | none => rayFirst bd fuel j df dr

/-- Is `target` attacked by any piece of color `byC`?  chess.js `_attacked`. -/
def isAttacked (bd : Board) (target : ℕ) (byC : PColor) : Bool :=
  knightOffsets.any (fun o =>
    match offSq target o.1 o.2 with
    | some j => boardGet bd j = some ⟨byC, .n⟩
    | none => false) ||
  kingOffsets.any (fun o =>
    match offSq target o.1 o.2 with
    | some j => boardGet bd j = some ⟨byC, .k⟩
    | none => false) ||
  -- a white pawn attacks from one rank below the target, a black one from above
  (let dr : Int := match byC with | .w => -1 | .b => 1
   ([(-1 : Int), 1]).any (fun df =>
    match offSq target df dr with
    | some j => boardGet bd j = some ⟨byC, .p⟩
    | none => false)) ||
  rookDirs.any (fun o =>
    match rayFirst bd 7 target o.1 o.2 with
    | some pc => pc.color = byC ∧ (pc.kind = .r ∨ pc.kind = .q)
    | none => false) ||
  bishopDirs.any (fun o =>
    match rayFirst bd 7 target o.1 o.2 with
    | some pc => pc.color = byC ∧ (pc.kind = .b ∨ pc.kind = .q)
    | none => false)

/-- Square of the king of a color. -/
def kingSq (bd : Board) (c : PColor) : Option ℕ :=
  (List.range 64).find? (fun i => boardGet bd i = some ⟨c, .k⟩)

/-- A generated move: origin, destination, optional promotion kind. -/
structure Mv where
  src : ℕ
  dst : ℕ
  promo : Option PKind
deriving DecidableEq, Repr

def pawnDir : PColor → Int
  | .w => 1
  | .b => -1

def promoRank : PColor → ℕ
  | .w => 7
  | .b => 0

def pawnStartRank : PColor → ℕ
  | .w => 1
  | .b => 6

/-- A pawn arrival, expanded to the four promotion moves on the last rank
(chess.js generates queen, rook, bishop and knight promotions). -/
def addPawnMove (c : PColor) (src dst : ℕ) : List Mv :=
  if dst / 8 = promoRank c then
    [⟨src, dst, some .q⟩, ⟨src, dst, some .r⟩, ⟨src, dst, some .b⟩, ⟨src, dst, some .n⟩]
  else [⟨src, dst, none⟩]

/-- Pseudo-legal pawn moves from a square. -/
def pawnMoves (pos : Position) (src : ℕ) : List Mv :=
  let c := pos.turn
  let d := pawnDir c
  let pushes :=
    match offSq src 0 d with
    | some one =>
      if boardGet pos.board one = none then
        addPawnMove c src one ++
          (if src / 8 = pawnStartRank c then
            match offSq src 0 (2 * d) with
            | some two => if boardGet pos.board two = none then [⟨src, two, none⟩] else []
            | none => []
          else [])
      else []
    | none => []
  let caps := ([(-1 : Int), 1]).foldr (fun df acc =>
    match offSq src df d with
    | some t =>
      match boardGet pos.board t with
      | some tp => if tp.color = c.other then addPawnMove c src t ++ acc else acc
      | none => if pos.ep = some t then ⟨src, t, none⟩ :: acc else acc
    | none => acc) []
  pushes ++ caps

/-- Pseudo-legal single-step moves (knight, king). -/
def leaperMoves (pos : Position) (src : ℕ) (offs : List (Int × Int)) : List Mv :=
  offs.foldr (fun o acc =>
    match offSq src o.1 o.2 with
    | some t =>
      match boardGet pos.board t with
      | some tp => if tp.color = pos.turn then acc else ⟨src, t, none⟩ :: acc
      | none => ⟨src, t, none⟩ :: acc
    | none => acc) []

/-- Pseudo-legal sliding moves along one direction. -/
def rayMoves (bd : Board) (c : PColor) (src : ℕ) : ℕ → ℕ → Int → Int → List Mv
  | 0, _, _, _ => []
  | fuel + 1, cur, df, dr =>
    match offSq cur df dr with
    | none => []
    | some t =>
      match boardGet bd t with
      | some tp => if tp.color = c then [] else [⟨src, t, none⟩]
      | none => ⟨src, t, none⟩ :: rayMoves bd c src fuel t df dr

/-- Sliding moves over a direction list. -/
def sliderMoves (pos : Position) (src : ℕ) (dirs : List (Int × Int)) : List Mv :=
  dirs.foldr (fun o acc => rayMoves pos.board pos.turn src 7 src o.1 o.2 ++ acc) []

/-- Castling moves for the king on `src`, mirroring the chess.js generation
conditions: the right is held, the intervening squares are empty, and the
king square, the transit square and the destination are not attacked. -/
def castleMoves (pos : Position) (src : ℕ) : List Mv :=
  let us := pos.turn
  let them := us.other
  let bd := pos.board
  let kside := match us with | .w => pos.castleWK | .b => pos.castleBK
  let qside := match us with | .w => pos.castleWQ | .b => pos.castleBQ
  (if kside = true ∧ src % 8 ≤ 5 then
    if boardGet bd (src + 1) = none ∧ boardGet bd (src + 2) = none ∧
        ¬ isAttacked bd src them = true ∧ ¬ isAttacked bd (src + 1) them = true ∧
        ¬ isAttacked bd (src + 2) them = true then
      [⟨src, src + 2, none⟩]
    else []
  else []) ++
  (if qside = true ∧ 3 ≤ src % 8 then
    if boardGet bd (src - 1) = none ∧ boardGet bd (src - 2) = none ∧
        boardGet bd (src - 3) = none ∧
        ¬ isAttacked bd src them = true ∧ ¬ isAttacked bd (src - 1) them = true ∧
        ¬ isAttacked bd (src - 2) them = true then
      [⟨src, src - 2, none⟩]
    else []
  else [])

/-- Pseudo-legal moves of the piece on `src`; empty when the square is empty
or holds a piece of the side not to move, exactly as chess.js `_moves`
skips squares whose piece is not the turn color. -/
def pieceMoves (pos : Position) (src : ℕ) : List Mv :=
  match boardGet pos.board src with
  | none => []
  | some pc =>
    if pc.color ≠ pos.turn then []
    else
      match pc.kind with
      | .p => pawnMoves pos src
      | .n => leaperMoves pos src knightOffsets
      | .b => sliderMoves pos src bishopDirs
      | .r => sliderMoves pos src rookDirs
      | .q => sliderMoves pos src (rookDirs ++ bishopDirs)
      | .k => leaperMoves pos src kingOffsets ++ castleMoves pos src

/-- All pseudo-legal moves for the side to move. -/
def pseudoMoves (pos : Position) : List Mv :=
  (List.range 64).foldr (fun i acc => pieceMoves pos i ++ acc) []

/-- Apply a generated move, chess.js `_makeMove`: en-passant removal,
promotion, castling rook transfer, castling-right updates, en-passant target
and move counters. -/
def applyMove (pos : Position) (m : Mv) : Position :=
  let bd := pos.board
  let us := pos.turn
  match boardGet bd m.src with
  | none => pos
  | some pc =>
    let isPawn := pc.kind = PKind.p
    let capDirect := (boardGet bd m.dst).isSome
    let isEp := isPawn ∧ pos.ep = some m.dst ∧ ¬ capDirect ∧ m.src % 8 ≠ m.dst % 8
    let bd1 := if isEp then
        boardSet bd (match us with | .w => m.dst - 8 | .b => m.dst + 8) none
      else bd
    let moved : Piece := match m.promo with
      | some pk => ⟨us, pk⟩
      | none => pc
    let bd2 := boardSet (boardSet bd1 m.src none) m.dst (some moved)
    let bd3 :=
      if pc.kind = PKind.k ∧ m.dst = m.src + 2 then
        boardSet (boardSet bd2 (m.src + 3) none) (m.src + 1) (some ⟨us, .r⟩)
      else if pc.kind = PKind.k ∧ m.src = m.dst + 2 then
        boardSet (boardSet bd2 (m.src - 4) none) (m.src - 1) (some ⟨us, .r⟩)
      else bd2
    let newEp : Option ℕ :=
      if isPawn ∧ (m.dst = m.src + 16 ∨ m.src = m.dst + 16) then some ((m.src + m.dst) / 2)
      else none
    let kingMovedW := us = PColor.w ∧ pc.kind = PKind.k
    let kingMovedB := us = PColor.b ∧ pc.kind = PKind.k
    { board := bd3
      turn := us.other
      castleWK := pos.castleWK ∧ ¬ kingMovedW ∧ m.src ≠ 7 ∧ m.dst ≠ 7
      castleWQ := pos.castleWQ ∧ ¬ kingMovedW ∧ m.src ≠ 0 ∧ m.dst ≠ 0
      castleBK := pos.castleBK ∧ ¬ kingMovedB ∧ m.src ≠ 63 ∧ m.dst ≠ 63
      castleBQ := pos.castleBQ ∧ ¬ kingMovedB ∧ m.src ≠ 56 ∧ m.dst ≠ 56
      ep := newEp
      halfmove := if isPawn ∨ capDirect ∨ isEp then 0 else pos.halfmove + 1
      fullmove := if us = PColor.b then pos.fullmove + 1 else pos.fullmove }

/-- Keep the moves that do not leave the moving side in check, the legality
filter chess.js applies after pseudo-generation. -/
def legalFilter (pos : Position) (ms : List Mv) : List Mv :=
  ms.filter (fun m =>
    let pos2 := applyMove pos m
    match kingSq pos2.board pos.turn with
    | some ks => ¬ isAttacked pos2.board ks pos.turn.other = true
    | none => true)

/-- chess.js `moves({ square })`: legal moves of the piece on a square;
empty when the square holds no piece of the side to move. -/
def movesFromSquare (pos : Position) (src : ℕ) : List Mv :=
  legalFilter pos (pieceMoves pos src)

/-- chess.js `moves()`: all legal moves for the side to move. -/
def legalMoves (pos : Position) : List Mv :=
  legalFilter pos (pseudoMoves pos)

/-- chess.js `moves({ square })` addressed by square name; an unknown name
yields no moves. -/
def movesFromSquareS (pos : Position) (s : String) : List Mv :=
  match parseSquare s with
  | some i => movesFromSquare pos i
  | none => []

/-- chess.js `inCheck()`: the side to move is attacked. -/
def inCheckB (pos : Position) : Bool :=
  match kingSq pos.board pos.turn with
  | some ks => isAttacked pos.board ks pos.turn.other
  | none => false

/-- chess.js `isCheckmate()`: in check with no legal move. -/
def isCheckmateB (pos : Position) : Bool :=
  inCheckB pos && (legalMoves pos).isEmpty

/-- Promotion letter of a piece kind. -/
def promoLetter : PKind → String
  | .p => "p"
  | .n => "n"
  | .b => "b"
  | .r => "r"
  | .q => "q"
  | .k => "k"

/-- chess.js move-object matching inside `move({from, to, promotion})`: the
from and to names must match and, when the generated move is a promotion, the
supplied promotion letter must equal the generated one. -/
def moveMatches (fi ti : ℕ) (promo : Option String) (m : Mv) : Bool :=
  (m.src == fi) && (m.dst == ti) &&
    (match m.promo with
     | none => true
     | some pk => promo == some (promoLetter pk))

/-- chess.js `move({from, to, promotion})`: find a matching legal move and
apply it; an illegal or unparseable move throws, modelled as nothing. -/
def chessMove (pos : Position) (fromS toS : String) (promo : Option String) :
    Option Position :=
  match parseSquare fromS, parseSquare toS with
  | some fi, some ti =>
    match (legalMoves pos).find? (moveMatches fi ti promo) with
    | some m => some (applyMove pos m)
    | none => none
  | _, _ => none

/-- chess.js `get(square)` addressed by square name. -/
def boardGetS (pos : Position) (s : String) : Option Piece :=
  match parseSquare s with
  | some i => boardGet pos.board i
  | none => none

/-! ### chess-utils.ts — the UCI move codec -/

/-- Components of a UCI move string, the return shape of `parseUciMove`. -/
structure UciParts where
  src : String
  dst : String
  promo : Option String
deriving DecidableEq, Repr

/-- JavaScript `String.prototype.slice(a, b)` for in-range indices. -/
def jsSlice (s : String) (a b : ℕ) : String :=
  ⟨(s.toList.drop a).take (b - a)⟩

/-- JavaScript string indexing `s[i]`; past-the-end yields `undefined`.  The
source promotes `uci[4] || undefined`: a one-character string is always
truthy, so the promotion component is present exactly when `uci` has a fifth
character. -/
def jsCharAt (s : String) (i : ℕ) : Option String :=
  match s.toList.get? i with
  | some c => some ⟨[c]⟩
  | none => none

/-- Function `parseUciMove` from chess-utils.ts: split a UCI string into from-square,
to-square and optional promotion letter. -/
def parseUciMove (uci : String) : UciParts :=
  { src := jsSlice uci 0 2
    dst := jsSlice uci 2 4
    promo := jsCharAt uci 4 }

/-- Function `toUci` from chess-utils.ts: concatenate from, to and the promotion
letter when present. -/
def toUci (src dst : String) (promo : Option String) : String :=
  src ++ dst ++ promo.getD ""

/-- A valid algebraic square name: a file letter `a`..`h` followed by a rank
digit `1`..`8`. -/
def isSquareName (s : String) : Prop :=
  (parseSquare s).isSome

instance (s : String) : Decidable (isSquareName s) := by
  unfold isSquareName; infer_instance

/-! ### tactics-detector.ts -/

/-- Table `PIECE_VALUES` from tactics-detector.ts. -/
def pieceValue : PKind → ℕ
  | .p => 1
  | .n => 3
  | .b => 3
  | .r => 5
  | .q => 9
  | .k => 0

/-- Tables `PIECE_NAMES` and `pieceName` from tactics-detector.ts. -/
def pieceName : PKind → String
  | .p => "pawn"
  | .n => "knight"
  | .b => "bishop"
  | .r => "rook"
  | .q => "queen"
  | .k => "king"

/-- Function `pieceName` applied to a raw promotion letter: known letters map to the
piece name, anything else is returned unchanged (`PIECE_NAMES[p] ?? p`). -/
def pieceNameOfStr (s : String) : String :=
  match s with
  | "p" => "pawn"
  | "n" => "knight"
  | "b" => "bishop"
  | "r" => "rook"
  | "q" => "queen"
  | "k" => "king"
  | _ => s

/-- An apostrophe, for building the explanation strings of the source. -/
def sQuote : String :=
  ⟨[Char.ofNat 39]⟩

/-- An entry of the list built by `getAttackedPieces`: the attacked square
name and the piece kind standing there. -/
structure AttackedPiece where
  square : String
  kind : PKind
deriving DecidableEq, Repr

/-- Function `getAttackedPieces` from tactics-detector.ts: walk the legal moves of the
piece on `square` and collect destination squares holding an opponent piece.
Because chess.js enumerates legal moves only for the side to move, a square
holding a piece of the other color yields no moves and hence no attacks. -/
def getAttackedPieces (game : Position) (square : String) (oppColor : PColor) :
    List AttackedPiece :=
  (movesFromSquareS game square).foldr (fun m acc =>
    match boardGet game.board m.dst with
    | some t => if t.color = oppColor then ⟨toAlg m.dst, t.kind⟩ :: acc else acc
    | none => acc) []

/-- Function `isUndefended` from tactics-detector.ts, square addressed by index.  The
source rewrites the FEN of `game` with the side to move forced to `color` and
the en-passant field cleared, reloads it, and scans the board for a piece of
`color` (other than the one on `square`) having a legal move onto `square`.
The FEN surgery is modelled directly as the corresponding state update; the
reload cannot fail for a position that itself came from a valid FEN, so the
catch-all `return false` branch of the source is unreachable here. -/
def isUndefendedIdx (game : Position) (square : ℕ) (color : PColor) : Bool :=
  match boardGet game.board square with
  | none => true
  | some _ =>
    let testGame : Position := { game with turn := color, ep := none }
    ¬ ((List.range 64).any (fun i =>
      match boardGet testGame.board i with
      | some pc =>
        decide (pc.color = color) && decide (i ≠ square) &&
          (movesFromSquare testGame i).any (fun m => m.dst == square)
      | none => false)) = true

/-- Function `isUndefended` addressed by square name: `game.get(square)` of an
unknown name is undefined, so the guard `if (!piece) return true` fires. -/
def isUndefended (game : Position) (square : String) (color : PColor) : Bool :=
  match parseSquare square with
  | some i => isUndefendedIdx game i color
  | none => true

/-- Structure `TacticalAnalysis` from tactics-detector.ts. -/
structure TacticalAnalysis where
  theme : String
  explanation : String
  pieces : List String
deriving DecidableEq, Repr

/-- The analysis returned when no piece stands on the origin square. -/
def unknownAnalysis : TacticalAnalysis :=
  ⟨"unknown", "Find the best move in this position.", []⟩

/-- First-occurrence deduplication, JavaScript `[...new Set(xs)]`. -/
def dedupFirstAux (seen : List String) : List String → List String
  | [] => []
  | x :: xs =>
    if x ∈ seen then dedupFirstAux seen xs
    else x :: dedupFirstAux (x :: seen) xs

def dedupFirst (xs : List String) : List String :=
  dedupFirstAux [] xs

/-- JavaScript `Math.abs` on the rational score values. -/
def ratAbs (q : ℚ) : ℚ :=
  if q < 0 then -q else q

/-- Floor of a rational as an integer. -/
def ratFloor (q : ℚ) : ℤ :=
  q.num.fdiv q.den

/-- Round half up, the rounding of `toFixed` on the one-decimal score values
this pipeline produces. -/
def ratRound (q : ℚ) : ℤ :=
  ratFloor (q + 1 / 2)

/-- JavaScript `v.toFixed(1)` on the rational score values handled by this pipeline. -/
def qToFixed1 (v : ℚ) : String :=
  let n : ℤ := ratRound (v * 10)
  (if n < 0 then "-" else "") ++ toString (n.natAbs / 10) ++ "." ++ toString (n.natAbs % 10)

/-- The eval formatter inside `detectTactics`: saturated near-mate scores
print as a mate label instead of a number. -/
def fmtEval (v : ℚ) : String :=
  if v ≥ 90 then "Mate"
  else if v ≤ -90 then "-Mate"
  else (if v > 0 then "+" else "") ++ qToFixed1 v

/-- The parenthetical eval-context clause appended by `detectTactics` when
both scores are supplied, normalized to the active side by flipping the sign
for Black and special-casing saturated mate scores. -/
def evalContext (activeColor : PColor) (evalBefore evalAfter : ℚ) : String :=
  let flip : ℚ := match activeColor with | .b => -1 | .w => 1
  let ebPlayer := evalBefore * flip
  let eaPlayer := evalAfter * flip
  if ratAbs ebPlayer ≥ 90 ∧ ratAbs eaPlayer < 90 then
    " (you had a forced mate but played a move worth " ++ fmtEval eaPlayer ++ ")"
  else if ratAbs ebPlayer < 90 ∨ ratAbs eaPlayer < 90 then
    " (eval: " ++ fmtEval ebPlayer ++ " → " ++ fmtEval eaPlayer ++ ", " ++
      qToFixed1 (ratAbs (eaPlayer - ebPlayer)) ++ " pawn swing)"
  else ""

/-- Function `detectTactics` from tactics-detector.ts, operating on the loaded
position (`new Chess(fen)` already performed).  The `playerMoveUci` argument
of the source is accepted and, as in the source, never read. -/
def detectTacticsPos (game : Position) (bestMoveUci : String)
    (playerMoveUci : Option String) (evalBefore evalAfter : Option ℚ) :
    TacticalAnalysis :=
  let parts := parseUciMove bestMoveUci
  match boardGetS game parts.src with
  | none => unknownAnalysis
  | some movingPiece =>
    let activeColor := game.turn
    let opponentColor := activeColor.other
    let activeSide := match activeColor with | .w => "White" | .b => "Black"
    let movingPieceName := pieceName movingPiece.kind
    let targetPiece := boardGetS game parts.dst
    let isCapture : Bool := match targetPiece with
      | some t => decide (t.color = opponentColor)
      | none => false
    match chessMove game parts.src parts.dst parts.promo with
    | none =>
      ⟨"tactic",
        "Moving the " ++ movingPieceName ++ " from " ++ parts.src ++ " to " ++
          parts.dst ++ " is the strongest continuation.",
        [movingPieceName]⟩
    | some afterGame =>
      if isCheckmateB afterGame then
        ⟨"checkmate",
          activeSide ++ sQuote ++ "s " ++ movingPieceName ++
            " delivers checkmate from " ++ parts.dst ++ "!",
          [movingPieceName, "king"]⟩
      else
        let givesCheck := inCheckB afterGame
        -- capture analysis
        let capPart : List String × List String × List String :=
          match targetPiece with
          | some tp =>
            if isCapture then
              let capturedName := pieceName tp.kind
              if pieceValue tp.kind > pieceValue movingPiece.kind then
                (["winning capture"],
                  ["the " ++ movingPieceName ++ " on " ++ parts.src ++
                    " captures the more valuable " ++ capturedName ++ " on " ++ parts.dst],
                  [capturedName])
              else if isUndefended game parts.dst opponentColor then
                (["hanging piece"],
                  ["the " ++ capturedName ++ " on " ++ parts.dst ++
                    " is undefended — the " ++ movingPieceName ++ " wins it for free"],
                  [capturedName])
              else
                (["capture"],
                  ["the " ++ movingPieceName ++ " captures the " ++ capturedName ++
                    " on " ++ parts.dst],
                  [capturedName])
            else ([], [], [])
          | none => ([], [], [])
        -- fork detection: opponent pieces attacked by the moved piece
        let attackedAfterMove := getAttackedPieces afterGame parts.dst opponentColor
        let valuableAttacked := attackedAfterMove.filter
          (fun a => pieceValue a.kind ≥ 3 ∨ a.kind = PKind.k)
        let forkPart : List String × List String × List String :=
          if valuableAttacked.length ≥ 2 then
            let targetNames := valuableAttacked.map
              (fun a => pieceName a.kind ++ " on " ++ a.square)
            (["fork"],
              ["the " ++ movingPieceName ++ " on " ++ parts.dst ++ " forks the " ++
                String.intercalate " and " targetNames],
              valuableAttacked.map (fun a => pieceName a.kind))
          else ([], [], [])
        let themes1 := capPart.1 ++ forkPart.1
        -- check combined with an attack on a valuable piece
        let checkWinPart : List String × List String × List String :=
          if givesCheck ∧ ¬ themes1.contains "fork" = true then
            let nonKingAttacked := attackedAfterMove.filter
              (fun a => a.kind ≠ PKind.k ∧ pieceValue a.kind ≥ 3)
            match nonKingAttacked with
            | first :: _ =>
              (["check and win"],
                ["the " ++ movingPieceName ++ " gives check from " ++ parts.dst ++
                  " while attacking the " ++ pieceName first.kind ++ " on " ++ first.square],
                [pieceName first.kind])
            | [] => ([], [], [])
          else ([], [], [])
        let themes2 := themes1 ++ checkWinPart.1
        -- simple check with no other tactic
        let checkPart : List String × List String :=
          if givesCheck ∧ themes2 = [] then
            (["check"],
              ["the " ++ movingPieceName ++ " gives check from " ++ parts.dst ++
                ", forcing the opponent to respond"])
          else ([], [])
        -- promotion clause
        let promoPart : List String × List String :=
          match parts.promo with
          | some pr =>
            (["promotion"],
              ["the pawn promotes to a " ++ pieceNameOfStr pr ++ " on " ++ parts.dst])
          | none => ([], [])
        let themes := themes2 ++ checkPart.1 ++ promoPart.1
        let results := capPart.2.1 ++ forkPart.2.1 ++ checkWinPart.2.1 ++
          checkPart.2 ++ promoPart.2
        let piecesInvolved := [movingPieceName] ++ capPart.2.2 ++ forkPart.2.2 ++
          checkWinPart.2.2
        let explanation0 : String × List String :=
          if results ≠ [] then
            ("Here, " ++ String.intercalate ". Also, " results ++ ".", themes)
          else
            match targetPiece with
            | some tp =>
              if isCapture then
                ("Capturing the " ++ pieceName tp.kind ++ " on " ++ parts.dst ++
                  " with the " ++ movingPieceName ++ " is the strongest move here.",
                  themes ++ ["positional"])
              else
                ("The key move is " ++ movingPieceName ++ " to " ++ parts.dst ++
                  " — this strengthens your position and creates problems for your opponent.",
                  themes ++ ["positional"])
            | none =>
              ("The key move is " ++ movingPieceName ++ " to " ++ parts.dst ++
                " — this strengthens your position and creates problems for your opponent.",
                themes ++ ["positional"])
        let explanation :=
          match evalBefore, evalAfter with
          | some eb, some ea => explanation0.1 ++ evalContext activeColor eb ea
          | _, _ => explanation0.1
        { theme := (explanation0.2.head?).getD "tactic"
          explanation := explanation
          pieces := dedupFirst piecesInvolved }

/-- Function `detectTactics` from tactics-detector.ts: load the FEN and analyze.  An
invalid FEN makes the source throw from the `Chess` constructor, modelled as
nothing. -/
def detectTactics (fen bestMoveUci : String) (playerMoveUci : Option String)
    (evalBefore evalAfter : Option ℚ) : Option TacticalAnalysis :=
  (parseFen fen).map (fun g => detectTacticsPos g bestMoveUci playerMoveUci evalBefore evalAfter)

/-! ### game-analyzer.ts -/

/-- The white or black side tags of pgn-parser.ts and game-analyzer.ts. -/
inductive Side
  | white
  | black
deriving DecidableEq, Repr

/-- The string form of a side tag, used in game keys. -/
def sideStr : Side → String
  | .white => "white"
  | .black => "black"

/-- Structure `PositionEval` from game-analyzer.ts: the engine verdict for one FEN,
evaluation in pawns from the White perspective, best move in UCI form. -/
structure PositionEval where
  fen : String
  evaluation : ℚ
  bestMove : String
  depth : ℕ
deriving DecidableEq, Repr

/-- Type `Difficulty` from types/puzzle.ts. -/
inductive Difficulty
  | easy
  | medium
  | hard
deriving DecidableEq, Repr

/-- Structure `CriticalPosition` from game-analyzer.ts. -/
structure CriticalPosition where
  fen : String
  bestMove : String
  playerMove : String
  evalBefore : ℚ
  evalAfter : ℚ
  evalDelta : ℚ
  moveNumber : ℕ
  side : Side
  clockTime : Option ℚ
  difficulty : Difficulty
  pattern : String
  opponent : String
  opponentRating : ℕ
  date : String
  timeControl : Option String
  playedAs : Side
  opening : Option String
  explanation : String
deriving DecidableEq, Repr

/-- Structure `AnalysisProgress` from game-analyzer.ts. -/
structure AnalysisProgress where
  gameIndex : ℕ
  totalGames : ℕ
  positionIndex : ℕ
  totalPositions : ℕ
  status : String
deriving DecidableEq, Repr

/-- Structure `ParsedMove` from pgn-parser.ts (the fields the analyzer reads). -/
structure ParsedMove where
  san : String
  uci : String
  fen : String
  fenBefore : String
  moveNumber : ℕ
  side : Side
  clockAfter : Option ℚ
  timeSpent : Option ℚ
deriving DecidableEq, Repr

/-- Structure `ParsedGame` from pgn-parser.ts (the fields the analyzer reads). -/
structure ParsedGame where
  moves : List ParsedMove
  date : Option String
  timeControl : Option String
  opening : Option String
deriving DecidableEq, Repr

/-- A Chess.com player record (the fields the analyzer reads). -/
structure ChessComGamePlayer where
  username : String
  rating : ℕ
deriving DecidableEq, Repr

/-- A Chess.com game record (the fields the analyzer reads). -/
structure ChessComGame where
  white : ChessComGamePlayer
  black : ChessComGamePlayer
deriving DecidableEq, Repr

/-- Structure `GameToAnalyze` from game-analyzer.ts. -/
structure GameToAnalyze where
  parsed : ParsedGame
  chesscomGame : ChessComGame
  username : String
deriving DecidableEq, Repr

/-- Structure `AnalyzerOptions` from game-analyzer.ts with its destructuring defaults. -/
structure AnalyzerOptions where
  depth : ℕ := 12
  evalThreshold : ℚ := 1
  skipOpeningMoves : ℕ := 8
deriving Repr

/-- ASCII `toLowerCase`, as applied to the usernames. -/
def asciiLower (s : String) : String :=
  ⟨s.toList.map (fun c =>
    if 65 ≤ c.toNat ∧ c.toNat ≤ 90 then Char.ofNat (c.toNat + 32) else c)⟩

/-- Short month names as produced by `toLocaleDateString` for `en-US`. -/
def monthName : ℕ → String
  | 1 => "Jan"
  | 2 => "Feb"
  | 3 => "Mar"
  | 4 => "Apr"
  | 5 => "May"
  | 6 => "Jun"
  | 7 => "Jul"
  | 8 => "Aug"
  | 9 => "Sep"
  | 10 => "Oct"
  | 11 => "Nov"
  | 12 => "Dec"
  | _ => ""

/-- Function `formatPgnDate` from pgn-parser.ts: `"2026.02.20"` becomes
`"Feb 20, 2026"`; anything that fails to split into three nonzero numbers is
returned unchanged. -/
def formatPgnDate (pgnDate : String) : String :=
  match (strSplitOn pgnDate '.').map strToNat with
  | [some y, some m, some d] =>
    if y = 0 ∨ m = 0 ∨ d = 0 then pgnDate
    else monthName m ++ " " ++ toString d ++ ", " ++ toString y
  | _ => pgnDate

/-- Function `evalDeltaForSide` from game-analyzer.ts: eval delta from the active
perspective of the active player, positive when the move hurt the mover.  Scores are
White-perspective throughout. -/
def evalDeltaForSide (evalBefore evalAfter : ℚ) (side : Side) : ℚ :=
  match side with
  | .white => evalBefore - evalAfter
  | .black => evalAfter - evalBefore

/-- The guard `clockTime !== undefined && clockTime < limit`. -/
def clockBelow (clockTime : Option ℚ) (limit : ℚ) : Bool :=
  match clockTime with
  | some t => t < limit
  | none => false

/-- Function `classifyDifficulty` from game-analyzer.ts. -/
def classifyDifficulty (evalDelta : ℚ) (clockTime : Option ℚ) : Difficulty :=
  if evalDelta ≥ 3 then .easy
  else if evalDelta ≥ 2 ∨ clockBelow clockTime 10 = true then .medium
  else .hard

/-- Function `classifyPattern` from game-analyzer.ts. -/
def classifyPattern (evalDelta : ℚ) (clockTime : Option ℚ) : String :=
  if clockBelow clockTime 30 then "Time Pressure Blunder"
  else if evalDelta ≥ 3 then "Hanging Piece"
  else if evalDelta ≥ 2 then "Missed Tactic"
  else "Positional Error"

/-- The mutable context of one `analyzeGames` run.  The engine worker is
modelled as the deterministic oracle threaded beside this state; `engineLog`
records, in order, each FEN actually submitted to the engine
(`stockfish.analyzePosition` calls).  The progress and puzzle callbacks are
modelled as event lists. -/
structure RunState where
  cache : List (String × PositionEval)
  engineLog : List String
  criticalPositions : List CriticalPosition
  bestMovesFound : List CriticalPosition
  blunders : ℕ
  mistakes : ℕ
  progressEvents : List AnalysisProgress
  streamedPuzzles : List CriticalPosition
deriving DecidableEq, Repr

def initialRunState : RunState :=
  ⟨[], [], [], [], 0, 0, [], []⟩

/-- The lookup `evalCache.get(fen)`. -/
def cacheLookup (cache : List (String × PositionEval)) (fen : String) :
    Option PositionEval :=
  (cache.find? (fun e => e.1 = fen)).map (·.2)

/-- Function `analyzeOrCache` from game-analyzer.ts: return the cached evaluation for
the FEN if present, otherwise call the engine, store the result, and return
it.  The engine oracle maps a FEN to the (evaluation, best move) pair its
`bestmove` response resolves to. -/
def analyzeOrCache (engine : String → ℚ × String) (depth : ℕ) (st : RunState)
    (fen : String) : PositionEval × RunState :=
  match cacheLookup st.cache fen with
  | some e => (e, st)
  | none =>
    let r : PositionEval := ⟨fen, (engine fen).1, (engine fen).2, depth⟩
    (r, { st with cache := st.cache ++ [(fen, r)], engineLog := st.engineLog ++ [fen] })

/-- The status string of a progress event:
`Game ${gi + 1}/${games.length} · move ${move.moveNumber}`. -/
def statusLine (totalGames gi moveNumber : ℕ) : String :=
  "Game " ++ toString (gi + 1) ++ "/" ++ toString totalGames ++ " · move " ++
    toString moveNumber

/-- The progress event reported for ply `mi` of game `gi`. -/
def progressFor (totalGames gi totalPositions mi moveNumber : ℕ) :
    AnalysisProgress :=
  ⟨gi, totalGames, mi, totalPositions, statusLine totalGames gi moveNumber⟩

/-- Append a progress event, the `onProgress?.(...)` call. -/
def recordProgress (totalGames gi totalPositions mi moveNumber : ℕ)
    (st : RunState) : RunState :=
  { st with progressEvents :=
      st.progressEvents ++ [progressFor totalGames gi totalPositions mi moveNumber] }

/-- The decided-position short-circuit condition of game-analyzer.ts: the
before-position is already cached with evaluation magnitude above 7 pawns. -/
def plyDecidedB (st : RunState) (move : ParsedMove) : Bool :=
  match cacheLookup st.cache move.fenBefore with
  | some c => ratAbs c.evaluation > 7
  | none => false

/-- The date string computed for a game: `formatPgnDate` of the PGN date
when present, else the empty string. -/
def gameDateStr (parsed : ParsedGame) : String :=
  match parsed.date with
  | some d => formatPgnDate d
  | none => ""

/-- The classification branch of the per-ply loop (lines 312–375): compute
the delta from the two evaluations and flag the ply as a mistake
(`delta ≥ evalThreshold`, checked first) or as a reinforcement
(`delta ≤ -0.3` and the played move equals the engine best move and the
before-eval magnitude exceeds 0.5), or leave the state unchanged. -/
def classifyCandidate (opts : AnalyzerOptions) (game : GameToAnalyze)
    (playedAs : Side) (opponent : String) (opponentRating : ℕ)
    (move : ParsedMove) (eb ea : PositionEval) (st2 : RunState) : RunState :=
      let delta := evalDeltaForSide eb.evaluation ea.evaluation move.side
      if delta ≥ opts.evalThreshold then
        let difficulty := classifyDifficulty delta move.clockAfter
        let pattern := classifyPattern delta move.clockAfter
        let dateStr := gameDateStr game.parsed
        -- the analyzer passes only parser-produced, valid FENs, so the
        -- `detectTactics` FEN load cannot fail here
        let tactics := (detectTactics move.fenBefore eb.bestMove (some move.uci)
          (some eb.evaluation) (some ea.evaluation)).getD unknownAnalysis
        let critical : CriticalPosition :=
          { fen := move.fenBefore
            bestMove := eb.bestMove
            playerMove := move.uci
            evalBefore := eb.evaluation
            evalAfter := ea.evaluation
            evalDelta := delta
            moveNumber := move.moveNumber
            side := move.side
            clockTime := move.clockAfter
            difficulty := difficulty
            pattern := if tactics.theme ≠ "unknown" ∧ tactics.theme ≠ "positional" then
                tactics.theme
              else pattern
            opponent := opponent
            opponentRating := opponentRating
            date := dateStr
            timeControl := game.parsed.timeControl
            playedAs := playedAs
            opening := game.parsed.opening
            explanation := tactics.explanation }
        { st2 with
          criticalPositions := st2.criticalPositions ++ [critical]
          blunders := if delta ≥ 2 then st2.blunders + 1 else st2.blunders
          mistakes := if delta ≥ 2 then st2.mistakes else st2.mistakes + 1 }
      else if delta ≤ -(0.3 : ℚ) ∧ eb.bestMove = move.uci ∧ ratAbs eb.evaluation > 0.5 then
        let dateStr := gameDateStr game.parsed
        { st2 with
          bestMovesFound := st2.bestMovesFound ++
            [{ fen := move.fenBefore
               bestMove := eb.bestMove
               playerMove := move.uci
               evalBefore := eb.evaluation
               evalAfter := ea.evaluation
               evalDelta := delta
               moveNumber := move.moveNumber
               side := move.side
               clockTime := move.clockAfter
               difficulty := Difficulty.hard
               pattern := "Best Move Found"
               opponent := opponent
               opponentRating := opponentRating
               date := dateStr
               timeControl := game.parsed.timeControl
               playedAs := playedAs
               opening := game.parsed.opening
               explanation := "Excellent! On move " ++ toString move.moveNumber ++
                 " you found the engine" ++ sQuote ++ "s top choice, maintaining a " ++
                 qToFixed1 (ratAbs ea.evaluation) ++ "-pawn advantage." }] }
      else st2

/-- The body of the per-ply loop of `analyzeGames` (lines 288–376): skip
plies of the other side and decided positions, report progress, evaluate the
before- and after-positions through the cache, and classify. -/
def processPly (engine : String → ℚ × String) (opts : AnalyzerOptions)
    (games : List GameToAnalyze) (gi : ℕ) (game : GameToAnalyze)
    (playedAs : Side) (opponent : String) (opponentRating : ℕ) (mi : ℕ)
    (st : RunState) : RunState :=
  match game.parsed.moves.get? mi with
  | none => st
  | some move =>
    if move.side ≠ playedAs then st
    else if plyDecidedB st move then st
    else
      let st1 := recordProgress games.length gi game.parsed.moves.length mi
        move.moveNumber st
      let r1 := analyzeOrCache engine opts.depth st1 move.fenBefore
      let eb := r1.1
      let r2 := analyzeOrCache engine opts.depth r1.2 move.fen
      let ea := r2.1
      let st2 := r2.2
      classifyCandidate opts game playedAs opponent opponentRating move eb ea st2

/-- The game key used by the streaming step:
`${opponent}_${date}_${playedAs}`. -/
def gameKeyParts (opponent date : String) (playedAs : Side) : String :=
  opponent ++ "_" ++ date ++ "_" ++ sideStr playedAs

/-- The key of an accumulated critical position. -/
def gameKeyOf (p : CriticalPosition) : String :=
  gameKeyParts p.opponent p.date p.playedAs

/-- JavaScript `xs.reduce((a, b) => (b.evalDelta > a.evalDelta ? b : a))`:
left fold from the first element. -/
def bestByDelta (hd : CriticalPosition) (tl : List CriticalPosition) :
    CriticalPosition :=
  tl.foldl (fun a b => if b.evalDelta > a.evalDelta then b else a) hd

/-- The streaming selection of game-analyzer.ts lines 378–388: filter the
accumulated critical positions of the run down to those with the key of this game and
take the one with the largest `evalDelta`; nothing is emitted when the game
contributed no mistake. -/
def emitForGame (gameKey : String) (ps : List CriticalPosition) :
    Option CriticalPosition :=
  match ps.filter (fun p => gameKeyOf p = gameKey) with
  | [] => none
  | h :: t => some (bestByDelta h t)

/-- The trailing streaming block of the game loop (lines 378–388): emit the
best accumulated mistake with the key of this game, if any, to the
`onPuzzleFound` consumer. -/
def streamStep (gameKey : String) (st : RunState) : RunState :=
  match emitForGame gameKey st.criticalPositions with
  | some best => { st with streamedPuzzles := st.streamedPuzzles ++ [best] }
  | none => st

/-- One iteration of the game loop of `analyzeGames`: derive the played
side and opponent from the Chess.com header, create the fresh per-game eval
cache (the source declares `const evalCache = new Map()` inside the game
loop), run the ply loop from the opening-skip index, then stream this
best accumulated mistake of this game, if any. -/
def processGame (engine : String → ℚ × String) (opts : AnalyzerOptions)
    (games : List GameToAnalyze) (gi : ℕ) (game : GameToAnalyze)
    (st : RunState) : RunState :=
  let playedAs : Side :=
    if asciiLower game.chesscomGame.white.username = asciiLower game.username then
      .white
    else .black
  let opponent := match playedAs with
    | .white => game.chesscomGame.black.username
    | .black => game.chesscomGame.white.username
  let opponentRating := match playedAs with
    | .white => game.chesscomGame.black.rating
    | .black => game.chesscomGame.white.rating
  let startIdx := opts.skipOpeningMoves * 2
  let st0 := { st with cache := [] }
  let st1 := (List.range' startIdx (game.parsed.moves.length - startIdx)).foldl
    (fun s mi => processPly engine opts games gi game playedAs opponent opponentRating mi s)
    st0
  let gameKey := gameKeyParts opponent (gameDateStr game.parsed) playedAs
  streamStep gameKey st1

/-- Function `analyzeGames` from game-analyzer.ts, as the final run context: iterate
the games in order, threading the run state.  The returned
`AnalysisResult` fields `criticalPositions`, `bestMovesFound`, `blunders`
and `mistakes` are the corresponding state fields. -/
def analyzeGames (engine : String → ℚ × String) (games : List GameToAnalyze)
    (opts : AnalyzerOptions) : RunState :=
  (List.range games.length).foldl (fun st gi =>
    match games.get? gi with
    | some g => processGame engine opts games gi g st
    | none => st) initialRunState

/-! ### Spec-side vocabulary -/

/-- The active-side (mover-perspective) reading of a White-perspective score:
White reads it directly, Black flips the sign. -/
def ownScore (side : Side) (v : ℚ) : ℚ :=
  match side with
  | .white => v
  | .black => -v

/-- The undefended test as the specification words it: the capture is played,
so the capturing piece hypothetically occupies the capture square, and every
opposing piece is then tested for a legal capturing move onto that square
with the side to move being the defending color (which it is after the
capture).  This is the reference the detector implementation is compared
against. -/
def specUndefended (game : Position) (fromS toS : String) : Bool :=
  match chessMove game fromS toS none, parseSquare toS with
  | some afterG, some ti => !((legalMoves afterG).any (fun m => m.dst == ti))
  | _, _ => true

/-! ### Concrete fixtures for the claim scenarios -/

/-- The fork scenario position of the specification. -/
def forkFen : String :=
  "r3k2r/ppp2ppp/3p4/1N6/8/8/PPP2PPP/R3K2R w KQkq - 0 1"

/-- A position whose best move captures a defended piece of equal value:
the white knight takes the black knight on d5, which the pawn on e6
defends. -/
def hangFen : String :=
  "4k3/8/4p3/3n4/8/2N5/8/4K3 w - - 0 1"

def emptyPosition : Position :=
  ⟨[], .w, false, false, false, false, none, 0, 0⟩

/-- The loaded form of `hangFen`. -/
def hangPos : Position :=
  (parseFen hangFen).getD emptyPosition

/-- The standard starting position. -/
def startFen : String :=
  "rnbqkbnr/pppppppp/8/8/8/8/PPPPPPPP/RNBQKBNR w KQkq - 0 1"

/-- The loaded form of `startFen`. -/
def startPos : Position :=
  (parseFen startFen).getD emptyPosition

/-- What the detector actually returns for the fork scenario. -/
def forkResult : TacticalAnalysis :=
  ⟨"hanging piece",
    "Here, the pawn on c7 is undefended — the knight wins it for free.",
    ["knight", "pawn"]⟩

/-- What the detector actually returns for the defended-capture position. -/
def hangResult : TacticalAnalysis :=
  ⟨"hanging piece",
    "Here, the knight on d5 is undefended — the knight wins it for free.",
    ["knight"]⟩

/-- A parsed move fixture. -/
def mkMoveFx (u fb fa : String) (n : ℕ) (s : Side) : ParsedMove :=
  { san := u
    uci := u
    fen := fa
    fenBefore := fb
    moveNumber := n
    side := s
    clockAfter := none
    timeSpent := none }

def fxFenA : String := "k7/8/8/8/8/8/8/K7 w - - 0 1"

def fxFenB : String := "k7/8/8/8/8/8/8/1K6 b - - 0 1"

/-- An engine oracle that calls every position equal. -/
def fxEngineFlat : String → ℚ × String := fun _ => (0, "a1b1")

/-- A one-ply game by the white player `hero`. -/
def fxGame : GameToAnalyze :=
  { parsed :=
      { moves := [mkMoveFx "a1b1" fxFenA fxFenB 1 .white]
        date := some "2026.02.20"
        timeControl := none
        opening := none }
    chesscomGame :=
      { white := ⟨"Hero", 1500⟩
        black := ⟨"Villain", 1400⟩ }
    username := "hero" }

/-- Options that analyze from the first ply with the default threshold. -/
def fxOpts : AnalyzerOptions :=
  { depth := 12
    evalThreshold := 1
    skipOpeningMoves := 0 }

/-- A critical position fixture carrying a given delta, all pieces of the
same game key. -/
def mkCritFx (d : ℚ) (n : ℕ) : CriticalPosition :=
  { fen := "f" ++ toString n
    bestMove := "d4d5"
    playerMove := "e2e3"
    evalBefore := 0
    evalAfter := 0
    evalDelta := d
    moveNumber := n
    side := .white
    clockTime := none
    difficulty := .hard
    pattern := "Positional Error"
    opponent := "Villain"
    opponentRating := 1400
    date := "Feb 20, 2026"
    timeControl := none
    playedAs := .white
    opening := none
    explanation := "x" }

/-- Three accumulated mistakes of one game with deltas 1.2, 3.4 and 2.0. -/
def fxCritList : List CriticalPosition :=
  [mkCritFx (12/10) 1, mkCritFx (34/10) 2, mkCritFx (20/10) 3]

/-- The game key shared by the `fxCritList` entries. -/
def fxGameKey : String :=
  gameKeyParts "Villain" "Feb 20, 2026" .white

/-- A run state whose cache already holds an 8.2-pawn evaluation for
`fxFenA`. -/
def fxDecidedState : RunState :=
  { cache := [(fxFenA, ⟨fxFenA, 82/10, "a1b1", 12⟩)]
    engineLog := [fxFenA]
    criticalPositions := []
    bestMovesFound := []
    blunders := 0
    mistakes := 0
    progressEvents := []
    streamedPuzzles := [] }

/-- An engine oracle for the mistake-path witness: the before-position of
`fxTacticsGame` evaluates to +2.0 with best move c3d5, its after-position to
+0.5, so the played move loses 1.5 pawns. -/
def fxEngineMistake : String → ℚ × String := fun fen =>
  if fen = hangFen then (2, "c3d5")
  else (1/2, "c3d5")

def fxFenAfter : String := "4k3/8/4p3/3n4/8/8/3K4/8 b - - 1 1"

/-- A one-ply game whose single white ply is a 1.5-pawn mistake in the
`hangFen` position. -/
def fxTacticsGame : GameToAnalyze :=
  { parsed :=
      { moves := [mkMoveFx "e1d2" hangFen fxFenAfter 1 .white]
        date := some "2026.02.20"
        timeControl := none
        opening := none }
    chesscomGame :=
      { white := ⟨"Hero", 1500⟩
        black := ⟨"Villain", 1400⟩ }
    username := "hero" }

/-! ### Helper lemmas -/

theorem parseSquare_shape (s : String) (h : (parseSquare s).isSome = true) :
    ∃ a b, s.data = [a, b] := by
  unfold parseSquare at h
  rcases hd : s.toList with _ | ⟨a, _ | ⟨b, _ | ⟨c, l⟩⟩⟩ <;> rw [hd] at h
  · simp at h
  · simp at h
  · exact ⟨a, b, hd⟩
  · simp at h

theorem cacheLookup_append_hit (c : List (String × PositionEval)) (fen : String)
    (e : PositionEval) (h : cacheLookup c fen = none) :
    cacheLookup (c ++ [(fen, e)]) fen = some e := by
  induction c with
  | nil => simp [cacheLookup, List.find?]
  | cons hd tl ih =>
    unfold cacheLookup at h ⊢
    by_cases hh : hd.1 = fen
    · rw [List.find?_cons_of_pos _ (by simpa using hh)] at h
      simp at h
    · have hb : decide (hd.1 = fen) = false := by simp [hh]
      simp only [List.cons_append, List.find?, hb] at h ⊢
      exact ih h

theorem analyzeOrCache_progress (engine : String → ℚ × String) (depth : ℕ)
    (st : RunState) (fen : String) :
    (analyzeOrCache engine depth st fen).2.progressEvents = st.progressEvents := by
  unfold analyzeOrCache
  cases h : cacheLookup st.cache fen <;> simp

theorem analyzeOrCache_streamed (engine : String → ℚ × String) (depth : ℕ)
    (st : RunState) (fen : String) :
    (analyzeOrCache engine depth st fen).2.streamedPuzzles = st.streamedPuzzles := by
  unfold analyzeOrCache
  cases h : cacheLookup st.cache fen <;> simp

theorem analyzeOrCache_critical (engine : String → ℚ × String) (depth : ℕ)
    (st : RunState) (fen : String) :
    (analyzeOrCache engine depth st fen).2.criticalPositions = st.criticalPositions := by
  unfold analyzeOrCache
  cases h : cacheLookup st.cache fen <;> simp

theorem analyzeOrCache_best (engine : String → ℚ × String) (depth : ℕ)
    (st : RunState) (fen : String) :
    (analyzeOrCache engine depth st fen).2.bestMovesFound = st.bestMovesFound := by
  unfold analyzeOrCache
  cases h : cacheLookup st.cache fen <;> simp

/-! ### Claim theorems -/

/-- C1: the classifier delta function returns `evalBefore - evalAfter` for
White and `evalAfter - evalBefore` for Black, and is therefore strictly
positive whenever the own-perspective score of the active side decreased across
the move. -/
theorem evalDeltaForSide_spec (evalBefore evalAfter : ℚ) (side : Side) :
    evalDeltaForSide evalBefore evalAfter side =
      (if side = Side.white then evalBefore - evalAfter else evalAfter - evalBefore) ∧
    (ownScore side evalAfter < ownScore side evalBefore →
      0 < evalDeltaForSide evalBefore evalAfter side) := by
  cases side <;>
    refine ⟨by simp [evalDeltaForSide], fun h => ?_⟩ <;>
    simp [evalDeltaForSide, ownScore] at h ⊢ <;> linarith

/-- C1 witness: after White moves from a +2.0 into a +1.0 position the own
score decreased, and the delta is the positive difference. -/
theorem evalDeltaForSide_spec_witness :
    ownScore Side.white 1 < ownScore Side.white 2 ∧
      0 < evalDeltaForSide 2 1 Side.white :=
  ⟨by decide, (evalDeltaForSide_spec 2 1 Side.white).2 (by decide)⟩

/-- C9: for square names and the four promotion letters, decoding the UCI
encoding of a `{from, to, promotion}` tuple restores the tuple. -/
theorem uci_roundtrip (f t : String) (p : Option String)
    (hf : isSquareName f) (ht : isSquareName t)
    (hp : p = none ∨ p = some "q" ∨ p = some "r" ∨ p = some "b" ∨ p = some "n") :
    parseUciMove (toUci f t p) = ⟨f, t, p⟩ := by
  obtain ⟨a, b, hf2⟩ := parseSquare_shape f hf
  obtain ⟨c, d, ht2⟩ := parseSquare_shape t ht
  cases f with
  | mk fl =>
    cases t with
    | mk tl =>
      have hfl : fl = [a, b] := hf2
      have htl : tl = [c, d] := ht2
      subst hfl htl
      rcases hp with rfl | rfl | rfl | rfl | rfl <;> rfl

/-- C9 witness: the queen promotion move from e7 to e8 round-trips. -/
theorem uci_roundtrip_witness :
    isSquareName "e7" ∧ isSquareName "e8" ∧
      parseUciMove (toUci "e7" "e8" (some "q")) = ⟨"e7", "e8", some "q"⟩ :=
  ⟨by decide, by decide,
    uci_roundtrip "e7" "e8" (some "q") (by decide) (by decide) (by simp)⟩

/-- C6 (amended): within the scope of one eval cache — which the source
creates afresh for each game of a run, not once per run — a second
`analyzeOrCache` request for the same FEN returns the stored evaluation,
leaves the state (including the engine call log) unchanged, and the first
request itself issues at most one engine call. -/
theorem analyzeOrCache_idempotent (engine : String → ℚ × String) (depth : ℕ)
    (st : RunState) (fen : String) :
    (analyzeOrCache engine depth (analyzeOrCache engine depth st fen).2 fen).1 =
      (analyzeOrCache engine depth st fen).1 ∧
    (analyzeOrCache engine depth (analyzeOrCache engine depth st fen).2 fen).2 =
      (analyzeOrCache engine depth st fen).2 ∧
    (analyzeOrCache engine depth st fen).2.engineLog.length ≤ st.engineLog.length + 1 := by
  cases h : cacheLookup st.cache fen with
  | some e =>
    unfold analyzeOrCache
    simp [h]
  | none =>
    have h2 := cacheLookup_append_hit st.cache fen
      ⟨fen, (engine fen).1, (engine fen).2, depth⟩ h
    unfold analyzeOrCache
    simp [h, h2]

/-- C6 counterexample: a run over two games that both visit `fxFenA` calls
the engine twice for that FEN, because the eval cache is recreated for each
game of the run rather than living for the whole run. -/
theorem run_cache_not_per_run :
    (analyzeGames fxEngineFlat [fxGame, fxGame] fxOpts).engineLog =
      [fxFenA, fxFenB, fxFenA, fxFenB] ∧
    (analyzeGames fxEngineFlat [fxGame, fxGame] fxOpts).engineLog.count fxFenA = 2 := by
  refine ⟨by decide, by decide⟩

theorem bestByDelta_spec (hd : CriticalPosition) (tl : List CriticalPosition) :
    bestByDelta hd tl ∈ hd :: tl ∧
      ∀ p ∈ hd :: tl, p.evalDelta ≤ (bestByDelta hd tl).evalDelta := by
  induction tl generalizing hd with
  | nil =>
    refine ⟨by simp [bestByDelta], ?_⟩
    intro p hp
    simp at hp
    simp [bestByDelta, hp]
  | cons b tl ih =>
    by_cases hc : b.evalDelta > hd.evalDelta
    · have hstep : bestByDelta hd (b :: tl) = bestByDelta b tl := by
        simp [bestByDelta, hc]
      obtain ⟨hmem, hmax⟩ := ih b
      refine ⟨?_, ?_⟩
      · rw [hstep]
        rcases List.mem_cons.mp hmem with h | h
        · simp [h]
        · simp [h]
      · intro p hp
        rw [hstep]
        rcases List.mem_cons.mp hp with rfl | hp2
        · exact le_trans (le_of_lt hc) (hmax b (List.mem_cons_self _ _))
        · rcases List.mem_cons.mp hp2 with rfl | hp3
          · exact hmax p (List.mem_cons_self _ _)
          · exact hmax p (List.mem_cons_of_mem _ hp3)
    · have hstep : bestByDelta hd (b :: tl) = bestByDelta hd tl := by
        simp [bestByDelta, hc]
      obtain ⟨hmem, hmax⟩ := ih hd
      refine ⟨?_, ?_⟩
      · rw [hstep]
        rcases List.mem_cons.mp hmem with h | h
        · simp [h]
        · simp [h]
      · intro p hp
        rw [hstep]
        rcases List.mem_cons.mp hp with rfl | hp2
        · exact hmax p (List.mem_cons_self _ _)
        · rcases List.mem_cons.mp hp2 with rfl | hp3
          · push_neg at hc
            exact le_trans hc (hmax hd (List.mem_cons_self _ _))
          · exact hmax p (List.mem_cons_of_mem _ hp3)

theorem classifyCandidate_streamed (opts : AnalyzerOptions) (game : GameToAnalyze)
    (playedAs : Side) (opponent : String) (opponentRating : ℕ) (move : ParsedMove)
    (eb ea : PositionEval) (st2 : RunState) :
    (classifyCandidate opts game playedAs opponent opponentRating move eb ea
      st2).streamedPuzzles = st2.streamedPuzzles := by
  simp only [classifyCandidate]
  split
  · rfl
  · split <;> rfl

theorem classifyCandidate_progress (opts : AnalyzerOptions) (game : GameToAnalyze)
    (playedAs : Side) (opponent : String) (opponentRating : ℕ) (move : ParsedMove)
    (eb ea : PositionEval) (st2 : RunState) :
    (classifyCandidate opts game playedAs opponent opponentRating move eb ea
      st2).progressEvents = st2.progressEvents := by
  simp only [classifyCandidate]
  split
  · rfl
  · split <;> rfl

theorem processPly_streamed (engine : String → ℚ × String) (opts : AnalyzerOptions)
    (games : List GameToAnalyze) (gi : ℕ) (game : GameToAnalyze) (playedAs : Side)
    (opponent : String) (opponentRating : ℕ) (mi : ℕ) (st : RunState) :
    (processPly engine opts games gi game playedAs opponent opponentRating mi
      st).streamedPuzzles = st.streamedPuzzles := by
  unfold processPly
  cases hmv : game.parsed.moves.get? mi with
  | none => rfl
  | some move =>
    by_cases hside : move.side = playedAs
    · by_cases hdec : plyDecidedB st move = true
      · simp [hside, hdec]
      · simp only [hside, hdec, ne_eq, not_true_eq_false, if_false, Bool.false_eq_true,
          ite_false, ite_true, not_false_eq_true]
        rw [classifyCandidate_streamed, analyzeOrCache_streamed, analyzeOrCache_streamed]
        rfl
    · simp [hside]

theorem streamStep_streamed_le (gameKey : String) (st : RunState) :
    (streamStep gameKey st).streamedPuzzles.length ≤ st.streamedPuzzles.length + 1 := by
  unfold streamStep
  cases h : emitForGame gameKey st.criticalPositions <;> simp

theorem foldPlies_streamed (engine : String → ℚ × String) (opts : AnalyzerOptions)
    (games : List GameToAnalyze) (gi : ℕ) (game : GameToAnalyze) (playedAs : Side)
    (opponent : String) (opponentRating : ℕ) (l : List ℕ) (st : RunState) :
    ((l.foldl
      (fun s mi => processPly engine opts games gi game playedAs opponent opponentRating mi s)
      st)).streamedPuzzles = st.streamedPuzzles := by
  induction l generalizing st with
  | nil => rfl
  | cons x xs ih =>
    rw [List.foldl_cons, ih, processPly_streamed]

/-- C2: in the classification branch reached by every candidate ply, the
ply is appended to the mistake list iff the delta is at least the threshold;
it is appended to the reinforcement list iff the delta is at most -0.3, the
played move equals the engine best move, and the before-eval magnitude
exceeds 0.5 (for a threshold above -0.3, as the default 1.0 is); the mistake
check comes first, and the two outcomes never happen together. -/
theorem mistake_reinforcement_gate (opts : AnalyzerOptions) (game : GameToAnalyze)
    (playedAs : Side) (opponent : String) (opponentRating : ℕ) (move : ParsedMove)
    (eb ea : PositionEval) (st2 : RunState)
    (hthr : -(0.3 : ℚ) < opts.evalThreshold) :
    ((classifyCandidate opts game playedAs opponent opponentRating move eb ea
        st2).criticalPositions.length = st2.criticalPositions.length + 1 ↔
      evalDeltaForSide eb.evaluation ea.evaluation move.side ≥ opts.evalThreshold) ∧
    ((classifyCandidate opts game playedAs opponent opponentRating move eb ea
        st2).bestMovesFound.length = st2.bestMovesFound.length + 1 ↔
      (evalDeltaForSide eb.evaluation ea.evaluation move.side ≤ -(0.3 : ℚ) ∧
        eb.bestMove = move.uci ∧ ratAbs eb.evaluation > 0.5)) ∧
    ¬ ((classifyCandidate opts game playedAs opponent opponentRating move eb ea
        st2).criticalPositions.length = st2.criticalPositions.length + 1 ∧
      (classifyCandidate opts game playedAs opponent opponentRating move eb ea
        st2).bestMovesFound.length = st2.bestMovesFound.length + 1) := by
  simp only [classifyCandidate]
  by_cases hD : evalDeltaForSide eb.evaluation ea.evaluation move.side ≥ opts.evalThreshold
  · rw [if_pos hD]
    refine ⟨by simp [hD], ?_, by simp⟩
    simp only [List.length_append]
    constructor
    · intro h
      exact absurd h (by simp)
    · rintro ⟨h1, -, -⟩
      exfalso
      have : -(0.3 : ℚ) < evalDeltaForSide eb.evaluation ea.evaluation move.side :=
        lt_of_lt_of_le hthr hD
      linarith
  · by_cases hR : evalDeltaForSide eb.evaluation ea.evaluation move.side ≤ -(0.3 : ℚ) ∧
        eb.bestMove = move.uci ∧ ratAbs eb.evaluation > 0.5
    · simp [hD, hR]
    · simp [hD, hR]

/-- C2 witness: a 1.5-pawn eval drop against a 1.0 threshold lands in the
mistake list only; the classified ply carries the real tactics-detector
output for the `hangFen` position. -/
theorem mistake_reinforcement_gate_witness :
    (-(0.3 : ℚ) < fxOpts.evalThreshold) ∧
    ((classifyCandidate fxOpts fxTacticsGame .white "Villain" 1400
        (mkMoveFx "e1d2" hangFen fxFenAfter 1 .white)
        ⟨hangFen, 2, "c3d5", 12⟩ ⟨fxFenAfter, 1/2, "c3d5", 12⟩
        initialRunState).criticalPositions.length = 1) ∧
    (((classifyCandidate fxOpts fxTacticsGame .white "Villain" 1400
        (mkMoveFx "e1d2" hangFen fxFenAfter 1 .white)
        ⟨hangFen, 2, "c3d5", 12⟩ ⟨fxFenAfter, 1/2, "c3d5", 12⟩
        initialRunState).criticalPositions.length = initialRunState.criticalPositions.length + 1 ↔
      evalDeltaForSide (2 : ℚ) (1/2) Side.white ≥ fxOpts.evalThreshold) ∧
    ((classifyCandidate fxOpts fxTacticsGame .white "Villain" 1400
        (mkMoveFx "e1d2" hangFen fxFenAfter 1 .white)
        ⟨hangFen, 2, "c3d5", 12⟩ ⟨fxFenAfter, 1/2, "c3d5", 12⟩
        initialRunState).bestMovesFound.length = initialRunState.bestMovesFound.length + 1 ↔
      (evalDeltaForSide (2 : ℚ) (1/2) Side.white ≤ -(0.3 : ℚ) ∧
        ("c3d5" : String) = (mkMoveFx "e1d2" hangFen fxFenAfter 1 .white).uci ∧
        ratAbs (2 : ℚ) > 0.5)) ∧
    ¬ ((classifyCandidate fxOpts fxTacticsGame .white "Villain" 1400
        (mkMoveFx "e1d2" hangFen fxFenAfter 1 .white)
        ⟨hangFen, 2, "c3d5", 12⟩ ⟨fxFenAfter, 1/2, "c3d5", 12⟩
        initialRunState).criticalPositions.length = initialRunState.criticalPositions.length + 1 ∧
      (classifyCandidate fxOpts fxTacticsGame .white "Villain" 1400
        (mkMoveFx "e1d2" hangFen fxFenAfter 1 .white)
        ⟨hangFen, 2, "c3d5", 12⟩ ⟨fxFenAfter, 1/2, "c3d5", 12⟩
        initialRunState).bestMovesFound.length = initialRunState.bestMovesFound.length + 1)) :=
  ⟨by decide, by decide,
    mistake_reinforcement_gate fxOpts fxTacticsGame .white "Villain" 1400
      (mkMoveFx "e1d2" hangFen fxFenAfter 1 .white)
      ⟨hangFen, 2, "c3d5", 12⟩ ⟨fxFenAfter, 1/2, "c3d5", 12⟩
      initialRunState (by decide)⟩

/-- C8: every candidate ply that reaches consideration (right side to move,
before-position not already decided) appends exactly one progress event,
carrying the game index, total game count, ply index, total ply count and
the human-readable status line — independently of whether the ply then
matches the mistake or reinforcement gate. -/
theorem progress_reported (engine : String → ℚ × String) (opts : AnalyzerOptions)
    (games : List GameToAnalyze) (gi : ℕ) (game : GameToAnalyze) (playedAs : Side)
    (opponent : String) (opponentRating : ℕ) (mi : ℕ) (st : RunState)
    (move : ParsedMove)
    (hmv : game.parsed.moves.get? mi = some move)
    (hside : move.side = playedAs)
    (hdec : plyDecidedB st move = false) :
    (processPly engine opts games gi game playedAs opponent opponentRating mi
      st).progressEvents =
      st.progressEvents ++
        [{ gameIndex := gi
           totalGames := games.length
           positionIndex := mi
           totalPositions := game.parsed.moves.length
           status := "Game " ++ toString (gi + 1) ++ "/" ++ toString games.length ++
             " · move " ++ toString move.moveNumber }] := by
  unfold processPly
  rw [hmv]
  simp only [hside, hdec, ne_eq, not_true_eq_false, if_false, Bool.false_eq_true,
    ite_false, ite_true, not_false_eq_true]
  rw [classifyCandidate_progress, analyzeOrCache_progress, analyzeOrCache_progress]
  rfl

/-- C8 witness: processing the first ply of the fixture game appends its
progress event. -/
theorem progress_reported_witness :
    fxGame.parsed.moves.get? 0 = some (mkMoveFx "a1b1" fxFenA fxFenB 1 .white) ∧
    (mkMoveFx "a1b1" fxFenA fxFenB 1 .white).side = Side.white ∧
    plyDecidedB initialRunState (mkMoveFx "a1b1" fxFenA fxFenB 1 .white) = false ∧
    (processPly fxEngineFlat fxOpts [fxGame] 0 fxGame .white "Villain" 1400 0
      initialRunState).progressEvents =
      initialRunState.progressEvents ++
        [{ gameIndex := 0
           totalGames := [fxGame].length
           positionIndex := 0
           totalPositions := fxGame.parsed.moves.length
           status := "Game " ++ toString (0 + 1) ++ "/" ++ toString [fxGame].length ++
             " · move " ++ toString (mkMoveFx "a1b1" fxFenA fxFenB 1 .white).moveNumber }] :=
  ⟨by decide, by decide, by decide,
    progress_reported fxEngineFlat fxOpts [fxGame] 0 fxGame .white "Villain" 1400 0
      initialRunState (mkMoveFx "a1b1" fxFenA fxFenB 1 .white) (by decide) (by decide)
      (by decide)⟩

/-- C5: the per-game streaming step emits at most one puzzle per game, and
what it emits is an accumulated mistake carrying the key of this game with the
maximal `evalDelta` among all accumulated mistakes with that key. -/
theorem emitForGame_spec (gameKey : String) (ps : List CriticalPosition)
    (best : CriticalPosition) (h : emitForGame gameKey ps = some best) :
    best ∈ ps ∧ gameKeyOf best = gameKey ∧
      (∀ p ∈ ps, gameKeyOf p = gameKey → p.evalDelta ≤ best.evalDelta) ∧
      ∀ (engine : String → ℚ × String) (opts : AnalyzerOptions)
        (games : List GameToAnalyze) (gi : ℕ) (g : GameToAnalyze) (st : RunState),
        (processGame engine opts games gi g st).streamedPuzzles.length ≤
          st.streamedPuzzles.length + 1 := by
  unfold emitForGame at h
  cases hf : ps.filter (fun p => gameKeyOf p = gameKey) with
  | nil => rw [hf] at h; exact absurd h (by simp)
  | cons h0 t0 =>
    rw [hf] at h
    have hbest : best = bestByDelta h0 t0 := by
      injection h with h2
      exact h2.symm
    obtain ⟨hmem, hmax⟩ := bestByDelta_spec h0 t0
    rw [← hbest] at hmem hmax
    have hmemf : best ∈ ps.filter (fun p => gameKeyOf p = gameKey) := by
      rw [hf]; exact hmem
    refine ⟨List.mem_of_mem_filter hmemf, ?_, ?_, ?_⟩
    · have := List.of_mem_filter hmemf
      simpa using this
    · intro p hp hkey
      have hpf : p ∈ ps.filter (fun p => gameKeyOf p = gameKey) :=
        List.mem_filter.mpr ⟨hp, by simp [hkey]⟩
      rw [hf] at hpf
      exact hmax p hpf
    · intro engine opts games gi g st
      simp only [processGame]
      refine le_trans (streamStep_streamed_le _ _) ?_
      rw [foldPlies_streamed]

/-- C5 witness: for three accumulated mistakes of one game with deltas 1.2,
3.4 and 2.0, the streamed puzzle is the 3.4-delta one. -/
theorem emitForGame_spec_witness :
    emitForGame fxGameKey fxCritList = some (mkCritFx (34/10) 2) ∧
      (mkCritFx (34/10) 2 ∈ fxCritList ∧ gameKeyOf (mkCritFx (34/10) 2) = fxGameKey ∧
        (∀ p ∈ fxCritList, gameKeyOf p = fxGameKey →
          p.evalDelta ≤ (mkCritFx (34/10) 2).evalDelta) ∧
        ∀ (engine : String → ℚ × String) (opts : AnalyzerOptions)
          (games : List GameToAnalyze) (gi : ℕ) (g : GameToAnalyze) (st : RunState),
          (processGame engine opts games gi g st).streamedPuzzles.length ≤
            st.streamedPuzzles.length + 1) :=
  ⟨by decide, emitForGame_spec fxGameKey fxCritList (mkCritFx (34/10) 2) (by decide)⟩

theorem getAttackedPieces_wrong_turn (game : Position) (s : String) (i : ℕ)
    (pc : Piece) (hs : parseSquare s = some i)
    (hp : boardGet game.board i = some pc) (hc : pc.color ≠ game.turn)
    (opp : PColor) :
    getAttackedPieces game s opp = [] := by
  unfold getAttackedPieces movesFromSquareS
  simp only [hs]
  unfold movesFromSquare pieceMoves
  simp only [hp]
  simp [hc, legalFilter]

/-- C3 (failing input): in the fork scenario position with best move b5c7
the detector returns theme `hanging piece` with pieces knight and pawn —
not `fork` or `check and win`, and with neither king nor rook among the
involved pieces.  After the best move the opponent is to move, so
enumerating legal moves of the just-moved piece yields nothing
(`getAttackedPieces_wrong_turn`) and the fork detection never fires. -/
theorem fork_scenario_divergence :
    detectTactics forkFen "b5c7" none none none = some forkResult ∧
    forkResult.theme ≠ "fork" ∧ forkResult.theme ≠ "check and win" ∧
    "king" ∉ forkResult.pieces ∧ "rook" ∉ forkResult.pieces := by
  refine ⟨by decide, by decide, by decide, by decide, by decide⟩

/-- C4 (failing input): the best move c3d5 captures a knight of equal value
that the e6 pawn defends — the undefended test of the specification reports
it defended — yet the detector labels the position `hanging piece`, because
`isUndefended` leaves the captured piece on its square when probing the
defenders, and no piece has a legal move onto a square its own side
occupies. -/
theorem hanging_defended_divergence :
    parseFen hangFen = some hangPos ∧
    specUndefended hangPos "c3" "d5" = false ∧
    isUndefended hangPos "d5" PColor.b = true ∧
    detectTactics hangFen "c3d5" none none none = some hangResult := by
  refine ⟨by decide, by decide, by decide, by decide⟩

/-- C10: on any position whose FEN parses, the detector is total: it always
produces an analysis; when no piece stands on the origin square of the best
move it returns theme `unknown` with an empty piece list, and when the best
move cannot be replayed on the position it returns theme `tactic` with the
generic explanation naming the moving piece. -/
theorem detectTactics_total (fen uci : String) (pm : Option String)
    (eb ea : Option ℚ) (game : Position)
    (hparse : parseFen fen = some game) :
    ∃ r, detectTactics fen uci pm eb ea = some r ∧
      (boardGetS game (parseUciMove uci).src = none → r = unknownAnalysis) ∧
      (∀ p, boardGetS game (parseUciMove uci).src = some p →
        chessMove game (parseUciMove uci).src (parseUciMove uci).dst
          (parseUciMove uci).promo = none →
        r = ⟨"tactic",
          "Moving the " ++ pieceName p.kind ++ " from " ++ (parseUciMove uci).src ++
            " to " ++ (parseUciMove uci).dst ++ " is the strongest continuation.",
          [pieceName p.kind]⟩) := by
  refine ⟨detectTacticsPos game uci pm eb ea, ?_, ?_, ?_⟩
  · unfold detectTactics
    rw [hparse]
    rfl
  · intro h
    simp only [detectTacticsPos]
    rw [h]
  · intro p hp hcm
    simp only [detectTacticsPos, hp, hcm]

/-- C10 witness: in the starting position the move e2e5 names an occupied
origin but cannot be replayed, so the detector returns the generic tactic
analysis rather than failing. -/
theorem detectTactics_total_witness :
    parseFen startFen = some startPos ∧
    ∃ r, detectTactics startFen "e2e5" none none none = some r ∧
      (boardGetS startPos (parseUciMove "e2e5").src = none → r = unknownAnalysis) ∧
      (∀ p, boardGetS startPos (parseUciMove "e2e5").src = some p →
        chessMove startPos (parseUciMove "e2e5").src (parseUciMove "e2e5").dst
          (parseUciMove "e2e5").promo = none →
        r = ⟨"tactic",
          "Moving the " ++ pieceName p.kind ++ " from " ++ (parseUciMove "e2e5").src ++
            " to " ++ (parseUciMove "e2e5").dst ++ " is the strongest continuation.",
          [pieceName p.kind]⟩) :=
  ⟨by decide, detectTactics_total startFen "e2e5" none none none startPos (by decide)⟩

/-- C7: a candidate ply whose before-position is already cached with an
evaluation magnitude above 7 pawns is skipped before classification: the
state is returned unchanged, so no engine call happens and neither the
mistake list nor the reinforcement list changes. -/
theorem decided_ply_skipped (engine : String → ℚ × String) (opts : AnalyzerOptions)
    (games : List GameToAnalyze) (gi : ℕ) (game : GameToAnalyze) (playedAs : Side)
    (opponent : String) (opponentRating : ℕ) (mi : ℕ) (st : RunState)
    (move : ParsedMove)
    (hmv : game.parsed.moves.get? mi = some move)
    (hdec : plyDecidedB st move = true) :
    processPly engine opts games gi game playedAs opponent opponentRating mi st = st := by
  unfold processPly
  rw [hmv]
  by_cases hside : move.side = playedAs
  · simp [hside, hdec]
  · simp [hside]

/-- C7 witness: with `fxFenA` cached at 8.2 pawns, processing the ply in
that position returns the state unchanged. -/
theorem decided_ply_skipped_witness :
    fxGame.parsed.moves.get? 0 = some (mkMoveFx "a1b1" fxFenA fxFenB 1 .white) ∧
    plyDecidedB fxDecidedState (mkMoveFx "a1b1" fxFenA fxFenB 1 .white) = true ∧
    processPly fxEngineFlat fxOpts [fxGame] 0 fxGame .white "Villain" 1400 0
      fxDecidedState = fxDecidedState :=
  ⟨by decide, by decide,
    decided_ply_skipped fxEngineFlat fxOpts [fxGame] 0 fxGame .white "Villain" 1400 0
      fxDecidedState (mkMoveFx "a1b1" fxFenA fxFenB 1 .white) (by decide) (by decide)⟩

end ChessRx
